import Mathlib

/-!
Verification of the Community-Connect recommendation subsystem.

Shallow embedding of the recommendation, cold-start, persistence and
A/B-testing logic of the repository (api/utils/recommendation_engine.py,
api/utils/ab_testing.py, api/management/commands/build_recommendations.py,
api/models.py), with theorems settling the specification claims.

Conventions:
  * Python floats are modelled as exact rationals where the code only does
    field arithmetic and comparisons, and as real numbers where the code
    uses transcendental functions (exp, sin, cos, sqrt, asin).
  * Python dicts keyed by ids are modelled as association lists or as
    functions into Option.
  * Database tables are modelled as lists of records; a query is a pure
    function over the list and a write returns the new list.
-/

namespace CommunityConnect

/-! ## Hybrid fusion engine

Embedded from HybridRecommendationEngine.generate_recommendations
(api/utils/recommendation_engine.py, lines 506-554).  The three
sub-engines' score dicts are parameters of type Int -> Option Rat;
a `none` means the engine did not score that candidate. -/

structure Weights where
  collaborative : ℚ
  content : ℚ
  location : ℚ

/-- Default weight vector from HybridRecommendationEngine.init:
collaborative 0.5, content 0.3, location 0.2. -/
def defaultWeights : Weights := ⟨1/2, 3/10, 1/5⟩

/-- One step of the score-combining loop body: if the engine scored the
candidate, add score * weight to the accumulated score and weight to the
accumulated total weight, else leave the accumulator unchanged. -/
def addContribution (acc : ℚ × ℚ) (w : ℚ) (s : Option ℚ) : ℚ × ℚ :=
  match s with
  | some v => (acc.1 + v * w, acc.2 + w)
  | none => acc

/-- The (score, total_weight) accumulator after the three engine branches
of the combining loop, in source order: collaborative, content, location. -/
def fusionAcc (w : Weights) (cf ct lc : Int → Option ℚ) (pid : Int) : ℚ × ℚ :=
  addContribution
    (addContribution
      (addContribution (0, 0) w.collaborative (cf pid))
      w.content (ct pid))
    w.location (lc pid)

/-- Entry of combined_scores for one candidate: score / total_weight when
total_weight > 0, absent otherwise. -/
def combinedScore (w : Weights) (cf ct lc : Int → Option ℚ) (pid : Int) : Option ℚ :=
  let acc := fusionAcc w cf ct lc pid
  if 0 < acc.2 then some (acc.1 / acc.2) else none

/-- Descending-score comparison used for the final sort: x comes no later
than y when x's score is at least y's score. -/
def scoreGE (x y : Int × ℚ) : Prop := y.2 ≤ x.2

instance : DecidableRel scoreGE := fun x y => inferInstanceAs (Decidable (y.2 ≤ x.2))

instance : IsTotal (Int × ℚ) scoreGE := ⟨fun x y => le_total y.2 x.2⟩

instance : IsTrans (Int × ℚ) scoreGE := ⟨fun _ _ _ h1 h2 => le_trans h2 h1⟩

/-- HybridRecommendationEngine.generate_recommendations: build
combined_scores over the candidate list, sort descending by score
(Python's sorted is stable, modelled by insertion sort), truncate to
top_k.  Candidate ids coming from the database are distinct. -/
def generate_recommendations (w : Weights) (cf ct lc : Int → Option ℚ)
    (candidate_providers : List Int) (top_k : Nat) : List (Int × ℚ) :=
  let combined_scores := candidate_providers.filterMap
    (fun pid => (combinedScore w cf ct lc pid).map (fun s => (pid, s)))
  (List.insertionSort scoreGE combined_scores).take top_k

/-- Spec-side: the list of scores of the engines that scored the candidate. -/
def engineScores (cf ct lc : Int → Option ℚ) (pid : Int) : List ℚ :=
  (cf pid).toList ++ (ct pid).toList ++ (lc pid).toList

/-- Spec-side: the (weight, score) pairs of the contributing engines. -/
def contribPairs (w : Weights) (cf ct lc : Int → Option ℚ) (pid : Int) : List (ℚ × ℚ) :=
  ((cf pid).map (fun s => (w.collaborative, s))).toList ++
  ((ct pid).map (fun s => (w.content, s))).toList ++
  ((lc pid).map (fun s => (w.location, s))).toList

/-- Spec-side: sum over the contributing engines of weight_i * score_i. -/
def specWeightedSum (w : Weights) (cf ct lc : Int → Option ℚ) (pid : Int) : ℚ :=
  (contribPairs w cf ct lc pid).foldr (fun p acc => p.1 * p.2 + acc) 0

/-- Spec-side: sum of the contributing engines' weights. -/
def specWeightSum (w : Weights) (cf ct lc : Int → Option ℚ) (pid : Int) : ℚ :=
  (contribPairs w cf ct lc pid).foldr (fun p acc => p.1 + acc) 0

lemma fusionAcc_eq_spec (w : Weights) (cf ct lc : Int → Option ℚ) (pid : Int) :
    fusionAcc w cf ct lc pid =
      (specWeightedSum w cf ct lc pid, specWeightSum w cf ct lc pid) := by
  unfold fusionAcc specWeightedSum specWeightSum contribPairs addContribution
  rcases cf pid with _ | a <;> rcases ct pid with _ | b <;> rcases lc pid with _ | c <;>
    simp <;> ring_nf <;> simp [mul_comm]

lemma weighted_sum_bounds (L : List (ℚ × ℚ)) (m M : ℚ)
    (hw : ∀ p ∈ L, 0 ≤ p.1) (hs : ∀ p ∈ L, m ≤ p.2 ∧ p.2 ≤ M) :
    m * L.foldr (fun p acc => p.1 + acc) 0 ≤ L.foldr (fun p acc => p.1 * p.2 + acc) 0 ∧
      L.foldr (fun p acc => p.1 * p.2 + acc) 0 ≤ M * L.foldr (fun p acc => p.1 + acc) 0 := by
  induction L with
  | nil => simp
  | cons p t ih =>
    have hwp : 0 ≤ p.1 := hw p (List.mem_cons_self p t)
    have hsp := hs p (List.mem_cons_self p t)
    have iht := ih (fun q hq => hw q (List.mem_cons_of_mem p hq))
      (fun q hq => hs q (List.mem_cons_of_mem p hq))
    constructor
    · simp only [List.foldr_cons]
      nlinarith [iht.1, hsp.1, mul_le_mul_of_nonneg_left hsp.1 hwp]
    · simp only [List.foldr_cons]
      nlinarith [iht.2, hsp.2, mul_le_mul_of_nonneg_left hsp.2 hwp]

lemma contribPairs_weights_nonneg (w : Weights) (cf ct lc : Int → Option ℚ) (pid : Int)
    (hc : 0 ≤ w.collaborative) (ht : 0 ≤ w.content) (hl : 0 ≤ w.location) :
    ∀ p ∈ contribPairs w cf ct lc pid, 0 ≤ p.1 := by
  intro p hp
  unfold contribPairs at hp
  simp only [List.mem_append, Option.mem_toList, Option.mem_def, Option.map_eq_some'] at hp
  rcases hp with (⟨a, _, rfl⟩ | ⟨b, _, rfl⟩) | ⟨c, _, rfl⟩ <;> assumption

lemma contribPairs_scores_mem (w : Weights) (cf ct lc : Int → Option ℚ) (pid : Int) :
    ∀ p ∈ contribPairs w cf ct lc pid, p.2 ∈ engineScores cf ct lc pid := by
  intro p hp
  unfold contribPairs at hp
  simp only [List.mem_append, Option.mem_toList, Option.mem_def, Option.map_eq_some'] at hp
  unfold engineScores
  rcases hp with (⟨a, ha, rfl⟩ | ⟨b, hb, rfl⟩) | ⟨c, hc2, rfl⟩
  · simp [ha]
  · simp [hb]
  · simp [hc2]

lemma mem_generate_imp_scored (w : Weights) (cf ct lc : Int → Option ℚ)
    (cands : List Int) (k : Nat) (pid : Int)
    (h : pid ∈ (generate_recommendations w cf ct lc cands k).map Prod.fst) :
    ∃ s, combinedScore w cf ct lc pid = some s := by
  unfold generate_recommendations at h
  rcases List.mem_map.mp h with ⟨x, hx, hfst⟩
  have hx' : x ∈ List.insertionSort scoreGE
      (cands.filterMap (fun q => (combinedScore w cf ct lc q).map (fun s => (q, s)))) :=
    List.mem_of_mem_take hx
  have hx'' : x ∈ cands.filterMap
      (fun q => (combinedScore w cf ct lc q).map (fun s => (q, s))) :=
    (List.perm_insertionSort scoreGE _).mem_iff.mp hx'
  rcases List.mem_filterMap.mp hx'' with ⟨q, _, hq⟩
  rcases Option.map_eq_some'.mp hq with ⟨s, hsome, hpair⟩
  refine ⟨s, ?_⟩
  have : q = pid := by
    have := congrArg Prod.fst hpair
    simpa [hfst] using this
  rw [← this]
  exact hsome

/-- C1: for every candidate scored by a non-empty subset of the three
sub-engines, with non-negative weights whose contributing sum is positive,
the fused score equals the sum of weight_i * score_i over the contributing
engines divided by the sum of the contributing weights, and lies between
any lower and upper bound of the contributing engines' scores (hence
within their min and max); a candidate scored by no engine is absent from
the returned list. -/
theorem fused_score_weighted_average (w : Weights) (cf ct lc : Int → Option ℚ)
    (pid : Int) (m M : ℚ) (cands : List Int) (top_k : Nat)
    (hc : 0 ≤ w.collaborative) (ht : 0 ≤ w.content) (hl : 0 ≤ w.location)
    (hden : 0 < specWeightSum w cf ct lc pid)
    (hb : ∀ s ∈ engineScores cf ct lc pid, m ≤ s ∧ s ≤ M) :
    (combinedScore w cf ct lc pid =
        some (specWeightedSum w cf ct lc pid / specWeightSum w cf ct lc pid) ∧
      m ≤ specWeightedSum w cf ct lc pid / specWeightSum w cf ct lc pid ∧
      specWeightedSum w cf ct lc pid / specWeightSum w cf ct lc pid ≤ M) ∧
    ∀ q, cf q = none → ct q = none → lc q = none →
      q ∉ (generate_recommendations w cf ct lc cands top_k).map Prod.fst := by
  constructor
  · have hbounds := weighted_sum_bounds (contribPairs w cf ct lc pid) m M
      (contribPairs_weights_nonneg w cf ct lc pid hc ht hl)
      (fun p hp => hb p.2 (contribPairs_scores_mem w cf ct lc pid p hp))
    refine ⟨?_, ?_, ?_⟩
    · unfold combinedScore
      rw [fusionAcc_eq_spec]
      simp [hden]
    · exact (le_div_iff₀ hden).mpr hbounds.1
    · exact (div_le_iff₀ hden).mpr hbounds.2
  · intro q hcf hct hlc hmem
    rcases mem_generate_imp_scored w cf ct lc cands top_k q hmem with ⟨s, hs⟩
    simp [combinedScore, fusionAcc, addContribution, hcf, hct, hlc] at hs

/-- Concrete fused-score witness data: both candidates 1 and 2 receive a
collaborative score of 1, the other engines abstain. -/
def cfBoth : Int → Option ℚ := fun pid => if pid = 1 ∨ pid = 2 then some 1 else none

/-- Score map of an engine that scored no candidate. -/
def noScores : Int → Option ℚ := fun _ => none

/-- Closed instance of the fused-score theorem: candidate 1 is scored only
by the collaborative engine with score 2, so its fused score is 2 and the
unscored candidate 5 is absent. -/
theorem fused_score_weighted_average_witness :
    (combinedScore defaultWeights (fun pid => if pid = 1 then some 2 else none)
        noScores noScores 1 =
      some (specWeightedSum defaultWeights (fun pid => if pid = 1 then some 2 else none)
          noScores noScores 1 /
        specWeightSum defaultWeights (fun pid => if pid = 1 then some 2 else none)
          noScores noScores 1) ∧
      (2 : ℚ) ≤ specWeightedSum defaultWeights (fun pid => if pid = 1 then some 2 else none)
          noScores noScores 1 /
        specWeightSum defaultWeights (fun pid => if pid = 1 then some 2 else none)
          noScores noScores 1 ∧
      specWeightedSum defaultWeights (fun pid => if pid = 1 then some 2 else none)
          noScores noScores 1 /
        specWeightSum defaultWeights (fun pid => if pid = 1 then some 2 else none)
          noScores noScores 1 ≤ (2 : ℚ)) ∧
    ∀ q, (fun pid : Int => if pid = 1 then some (2 : ℚ) else none) q = none →
      noScores q = none → noScores q = none →
      q ∉ (generate_recommendations defaultWeights
          (fun pid => if pid = 1 then some 2 else none) noScores noScores
          [1, 5] 20).map Prod.fst :=
  fused_score_weighted_average defaultWeights
    (fun pid => if pid = 1 then some 2 else none) noScores noScores 1 2 2 [1, 5] 20
    (by norm_num [defaultWeights]) (by norm_num [defaultWeights])
    (by norm_num [defaultWeights])
    (by norm_num [specWeightSum, contribPairs, defaultWeights, noScores])
    (by norm_num [engineScores, noScores])

/-- Ranking order asserted by the spec for the returned list: strictly
greater score first, ties broken by ascending provider id. -/
def claimTieOrder (l : List (Int × ℚ)) : Prop :=
  l.Pairwise (fun a b => b.2 < a.2 ∨ (a.2 = b.2 ∧ a.1 < b.1))

/-- C5 counterexample: with candidates listed as [2, 1] and both fused to
the same score 1, the returned list keeps the stable input order
[(2, 1), (1, 1)], so equal-score entries are not ordered by ascending
provider id. -/
theorem tie_break_counterexample :
    generate_recommendations defaultWeights cfBoth noScores noScores [2, 1] 20 =
      [(2, 1), (1, 1)] ∧
    ¬ claimTieOrder
      (generate_recommendations defaultWeights cfBoth noScores noScores [2, 1] 20) := by
  have hc2 : combinedScore defaultWeights cfBoth noScores noScores 2 = some 1 := by
    norm_num [combinedScore, fusionAcc, addContribution, cfBoth, noScores, defaultWeights]
  have hc1 : combinedScore defaultWeights cfBoth noScores noScores 1 = some 1 := by
    norm_num [combinedScore, fusionAcc, addContribution, cfBoth, noScores, defaultWeights]
  have hgen : generate_recommendations defaultWeights cfBoth noScores noScores [2, 1] 20 =
      [(2, 1), (1, 1)] := by
    simp only [generate_recommendations, List.filterMap_cons, List.filterMap_nil,
      hc1, hc2, Option.map_some']
    norm_num [List.insertionSort, List.orderedInsert, scoreGE]
  refine ⟨hgen, ?_⟩
  rw [hgen]
  intro h
  unfold claimTieOrder at h
  rcases List.pairwise_cons.mp h with ⟨h1, _⟩
  have h2 := h1 (1, 1) (by simp)
  norm_num at h2

/-- C5 amended: the returned list is sorted in descending (non-increasing)
order of final score and contains at most top_k entries; equal-score
entries keep the stable sort's order, which follows the candidate list,
not ascending provider id. -/
theorem generate_sorted_truncated (w : Weights) (cf ct lc : Int → Option ℚ)
    (cands : List Int) (top_k : Nat) :
    List.Sorted scoreGE (generate_recommendations w cf ct lc cands top_k) ∧
    (generate_recommendations w cf ct lc cands top_k).length ≤ top_k := by
  constructor
  · exact List.Pairwise.sublist (List.take_sublist _ _)
      (List.sorted_insertionSort scoreGE _)
  · simp [generate_recommendations]

/-! ## Cold-start synthetic scores

Embedded from Command.generate_cold_start_recommendations
(api/management/commands/build_recommendations.py, lines 331-341):
enumerate the selected provider ids and attach score
max(0.3, 0.8 - 0.05 * i) at 0-based rank index i. -/

/-- Synthetic cold-start score at 0-based rank index i. -/
def cold_start_score (i : Nat) : ℚ := max (3/10) (8/10 - (i : ℚ) * (5/100))

/-- The score-assignment loop of generate_cold_start_recommendations. -/
def generate_cold_start_recommendations (provider_ids : List Int) : List (Int × ℚ) :=
  provider_ids.enum.map (fun p => (p.2, cold_start_score p.1))

lemma gen_cold_get? (ids : List Int) (i : Nat) :
    (generate_cold_start_recommendations ids).get? i =
      (ids.get? i).map (fun pid => (pid, cold_start_score i)) := by
  unfold generate_cold_start_recommendations
  rw [List.get?_map, List.get?_enum]
  cases ids.get? i <;> simp

/-- Twelve provider ids, enough to reach the 0.3 score floor twice. -/
def idsTwelve : List Int := [1, 2, 3, 4, 5, 6, 7, 8, 9, 10, 11, 12]

/-- C4 counterexample: with twelve cold-start providers the scores at rank
indices 10 and 11 are both exactly 0.3, so the scores do not strictly
decrease with rank for every top_k. -/
theorem cold_start_strict_decay_counterexample :
    ((generate_cold_start_recommendations idsTwelve).map Prod.snd).get? 10 = some (3/10) ∧
    ((generate_cold_start_recommendations idsTwelve).map Prod.snd).get? 11 = some (3/10) ∧
    ¬ List.Pairwise (fun a b : ℚ => b < a)
      ((generate_cold_start_recommendations idsTwelve).map Prod.snd) := by
  have h10 : ((generate_cold_start_recommendations idsTwelve).map Prod.snd).get? 10 =
      some (3/10) := by
    rw [List.get?_map, gen_cold_get?]
    norm_num [idsTwelve, cold_start_score]
  have h11 : ((generate_cold_start_recommendations idsTwelve).map Prod.snd).get? 11 =
      some (3/10) := by
    rw [List.get?_map, gen_cold_get?]
    norm_num [idsTwelve, cold_start_score]
  refine ⟨h10, h11, ?_⟩
  intro h
  rw [List.pairwise_iff_get] at h
  have hlen : ((generate_cold_start_recommendations idsTwelve).map Prod.snd).length = 12 := by
    simp [generate_cold_start_recommendations, idsTwelve]
  have hb10 : 10 < ((generate_cold_start_recommendations idsTwelve).map Prod.snd).length := by
    rw [hlen]; norm_num
  have hb11 : 11 < ((generate_cold_start_recommendations idsTwelve).map Prod.snd).length := by
    rw [hlen]; norm_num
  have hlt := h ⟨10, hb10⟩ ⟨11, hb11⟩ (by simp [Fin.lt_def])
  have e10 := List.get?_eq_get hb10
  have e11 := List.get?_eq_get hb11
  rw [h10] at e10
  rw [h11] at e11
  rw [← Option.some_inj.mp e10, ← Option.some_inj.mp e11] at hlt
  exact lt_irrefl _ hlt

/-- C4 amended: the cold-start score at rank index i equals
max(0.3, 0.8 - 0.05 * i); for every provider list the scores are at least
0.3 and non-increasing with rank, and they strictly decrease between ranks
i < j as long as rank i is still above the 0.3 floor (i < 10). -/
theorem cold_start_decay (ids : List Int) (i j : Nat) (p q : Int) (s t : ℚ)
    (hi : (generate_cold_start_recommendations ids).get? i = some (p, s))
    (hj : (generate_cold_start_recommendations ids).get? j = some (q, t))
    (hij : i ≤ j) :
    s = max (3/10) (8/10 - (i : ℚ) * (5/100)) ∧
    3/10 ≤ s ∧
    t ≤ s ∧
    (i < j → i < 10 → t < s) := by
  rw [gen_cold_get?] at hi hj
  rcases Option.map_eq_some'.mp hi with ⟨pi, _, hpi⟩
  rcases Option.map_eq_some'.mp hj with ⟨pj, _, hpj⟩
  have hs : s = cold_start_score i := (congrArg Prod.snd hpi).symm
  have ht : t = cold_start_score j := (congrArg Prod.snd hpj).symm
  subst hs; subst ht
  have hcast : (i : ℚ) ≤ (j : ℚ) := by exact_mod_cast hij
  refine ⟨rfl, le_max_left _ _, ?_, ?_⟩
  · apply max_le_max le_rfl
    nlinarith
  · intro hlt h10
    have hcast1 : (i : ℚ) + 1 ≤ (j : ℚ) := by exact_mod_cast hlt
    have h9 : (i : ℚ) ≤ 9 := by exact_mod_cast Nat.lt_succ_iff.mp h10
    have hfloor : (3/10 : ℚ) < 8/10 - (i : ℚ) * (5/100) := by nlinarith
    have hsi : cold_start_score i = 8/10 - (i : ℚ) * (5/100) :=
      max_eq_right (le_of_lt hfloor)
    rw [hsi]
    unfold cold_start_score
    apply max_lt hfloor
    nlinarith

/-- Closed instance of the cold-start decay theorem at ranks 0 and 1 of a
two-provider list: the scores are 0.8 and 0.75 and strictly decrease. -/
theorem cold_start_decay_witness :
    (4/5 : ℚ) = max (3/10) (8/10 - (0 : ℚ) * (5/100)) ∧
    (3/10 : ℚ) ≤ 4/5 ∧
    (3/4 : ℚ) ≤ 4/5 ∧
    ((0 : Nat) < 1 → (0 : Nat) < 10 → (3/4 : ℚ) < 4/5) := by
  have h := cold_start_decay [7, 8] 0 1 7 8 (4/5) (3/4)
    (by rw [gen_cold_get?]; norm_num [cold_start_score])
    (by rw [gen_cold_get?]; norm_num [cold_start_score])
    (by norm_num)
  simpa using h

/-! ## Collaborative filtering engine

Embedded from CollaborativeFilteringEngine
(api/utils/recommendation_engine.py).  A trained model consists of the
latent factor lookup for users and providers (user_index_map composed with
user_factors, provider_index_map composed with provider_factors) and the
is_trained flag. -/

structure CFModel where
  user_factors : Int → Option (List ℚ)
  provider_factors : Int → Option (List ℚ)
  is_trained : Bool

/-- Dot product of two latent vectors (np.dot on equal-length vectors). -/
def dotProduct (u v : List ℚ) : ℚ := ((u.zip v).map (fun p => p.1 * p.2)).sum

/-- CollaborativeFilteringEngine.predict_scores: empty when untrained or
the user has no factor row; otherwise each candidate provider with a
factor row is scored with the dot product floored at 0, and candidates
without a factor row are skipped. -/
def cf_predict_scores (m : CFModel) (user_id : Int) (provider_ids : List Int) :
    List (Int × ℚ) :=
  if m.is_trained = false then []
  else match m.user_factors user_id with
    | none => []
    | some uv => provider_ids.filterMap (fun pid =>
        (m.provider_factors pid).map (fun pv => (pid, max 0 (dotProduct uv pv))))

/-- A trained model knowing user 1 and provider 1 but not provider 2. -/
def cfSparseModel : CFModel :=
  ⟨fun u => if u = 1 then some [1] else none,
   fun p => if p = 1 then some [2] else none,
   true⟩

/-- C6 counterexample: candidate 2 has no trained factor, yet the returned
mapping is not empty — it still scores candidate 1. -/
theorem cf_predict_skip_counterexample :
    cf_predict_scores cfSparseModel 1 [1, 2] = [(1, 2)] ∧
    cf_predict_scores cfSparseModel 1 [1, 2] ≠ [] := by
  have h : cf_predict_scores cfSparseModel 1 [1, 2] = [(1, 2)] := by
    norm_num [cf_predict_scores, cfSparseModel, dotProduct,
      List.filterMap_cons, List.filterMap_nil]
  refine ⟨h, ?_⟩
  rw [h]
  simp

/-- C6 amended: predict_scores returns only non-negative scores, each the
dot product of the user's and the provider's latent vectors floored at 0;
it returns the empty mapping when the model is untrained or the user has
no trained factor; and a candidate with no trained factor is omitted from
the mapping while the remaining candidates are still scored. -/
theorem cf_predict_scores_spec (m : CFModel) (u : Int) (pids : List Int) :
    (∀ e ∈ cf_predict_scores m u pids, 0 ≤ e.2 ∧
      ∃ uv pv, m.user_factors u = some uv ∧ m.provider_factors e.1 = some pv ∧
        e.2 = max 0 (dotProduct uv pv)) ∧
    (m.is_trained = false → cf_predict_scores m u pids = []) ∧
    (m.user_factors u = none → cf_predict_scores m u pids = []) ∧
    (∀ pid, m.provider_factors pid = none →
      pid ∉ (cf_predict_scores m u pids).map Prod.fst) := by
  refine ⟨?_, ?_, ?_, ?_⟩
  · intro e he
    unfold cf_predict_scores at he
    rcases htr : m.is_trained with _ | _
    · rw [htr] at he; simp at he
    · rw [htr] at he
      simp only [Bool.true_eq_false, if_false] at he
      rcases huf : m.user_factors u with _ | uv
      · rw [huf] at he; simp at he
      · rw [huf] at he
        rcases List.mem_filterMap.mp he with ⟨pid, _, hpe⟩
        rcases Option.map_eq_some'.mp hpe with ⟨pv, hpv, hepair⟩
        subst hepair
        exact ⟨le_max_left _ _, uv, pv, rfl, hpv, rfl⟩
  · intro htr
    unfold cf_predict_scores
    rw [htr]
    simp
  · intro huf
    unfold cf_predict_scores
    rw [huf]
    rcases m.is_trained with _ | _ <;> simp
  · intro pid hpf hmem
    unfold cf_predict_scores at hmem
    rcases htr : m.is_trained with _ | _
    · rw [htr] at hmem; simp at hmem
    · rw [htr] at hmem
      simp only [Bool.true_eq_false, if_false] at hmem
      rcases huf : m.user_factors u with _ | uv
      · rw [huf] at hmem; simp at hmem
      · rw [huf] at hmem
        rcases List.mem_map.mp hmem with ⟨e, he, hefst⟩
        rcases List.mem_filterMap.mp he with ⟨q, _, hq⟩
        rcases Option.map_eq_some'.mp hq with ⟨pv, hpv, hepair⟩
        have hq' : q = pid := by
          have := congrArg Prod.fst hepair
          simpa [hefst] using this
        rw [hq', hpf] at hpv
        exact Option.noConfusion hpv

/-- Closed instance of the predict_scores theorem on cfSparseModel: the
returned entry for provider 1 is non-negative and provider 2 is absent. -/
theorem cf_predict_scores_spec_witness :
    (∀ e ∈ cf_predict_scores cfSparseModel 1 [1, 2], 0 ≤ e.2 ∧
      ∃ uv pv, cfSparseModel.user_factors 1 = some uv ∧
        cfSparseModel.provider_factors e.1 = some pv ∧
        e.2 = max 0 (dotProduct uv pv)) ∧
    (2 : Int) ∉ (cf_predict_scores cfSparseModel 1 [1, 2]).map Prod.fst := by
  have h := cf_predict_scores_spec cfSparseModel 1 [1, 2]
  exact ⟨h.1, h.2.2.2 2 (by norm_num [cfSparseModel])⟩

/-! ## Collaborative training on a single interaction

CollaborativeFilteringEngine.train builds the interaction matrix (None
when there are no interactions, making train return false) and then calls
the external sklearn TruncatedSVD fit, wrapped in a try/except that turns
any raised error into a false return. -/

structure Interaction where
  user_id : Int
  provider_id : Int
  score : ℚ

/-- Distinct user ids, the rows of the pivoted interaction matrix. -/
def matrixUsers (l : List Interaction) : List Int :=
  (l.map (fun i => i.user_id)).dedup

/-- Distinct provider ids, the columns of the pivoted interaction matrix. -/
def matrixProviders (l : List Interaction) : List Int :=
  (l.map (fun i => i.provider_id)).dedup

/-- Modelled from the spec: the truncated-SVD fit itself is an external
library call (sklearn TruncatedSVD, not part of this repository); per the
spec the fixed component count "must be <= min(rows, cols) - 1", so the
fit succeeds exactly when that bound holds and raises otherwise. -/
def svd_fit_succeeds (n_components rows cols : Nat) : Bool :=
  n_components ≤ min rows cols - 1

/-- Default component count from CollaborativeFilteringEngine.init. -/
def default_n_components : Nat := 50

/-- CollaborativeFilteringEngine.train: false when there are no
interactions; otherwise true exactly when the SVD fit succeeds, because a
raised fit error is caught and converted to a false return. -/
def cf_train (n_components : Nat) (interactions : List Interaction) : Bool :=
  if interactions.isEmpty then false
  else svd_fit_succeeds n_components (matrixUsers interactions).length
    (matrixProviders interactions).length

/-- C3: with a single 5-star rating by user 1 on provider 2 as the only
interaction, the matrix is 1 x 1 and the default component count 50
violates the SVD bound, so training returns false — contradicting the
claim that it must return true with a positive predicted score. -/
theorem single_rating_train_fails :
    cf_train default_n_components [⟨1, 2, 5⟩] = false := by
  decide

/-! ## Recommendation persistence

Embedded from Command.save_user_recommendations
(api/management/commands/build_recommendations.py, lines 359-383): delete
all existing rows of the user, then bulk-insert one row per generated
recommendation. -/

structure RecRecord where
  user_id : Int
  provider_id : Int
  score : ℚ

/-- The delete-then-insert rebuild write for one user. -/
def save_user_recommendations (db : List RecRecord) (u : Int)
    (recs : List (Int × ℚ)) : List RecRecord :=
  (db.filter (fun r => r.user_id ≠ u)) ++
    recs.map (fun pr => ⟨u, pr.1, pr.2⟩)

lemma count_fst_le_one (recs : List (Int × ℚ)) (p : Int)
    (h : (recs.map Prod.fst).Nodup) :
    (recs.filter (fun pr => pr.1 = p)).length ≤ 1 := by
  induction recs with
  | nil => simp
  | cons a t ih =>
    simp only [List.map_cons, List.nodup_cons, List.mem_map] at h
    rw [List.filter_cons]
    by_cases hap : a.1 = p
    · have ht0 : t.filter (fun pr => pr.1 = p) = [] := by
        rw [List.filter_eq_nil_iff]
        intro b hb
        simp only [decide_eq_true_eq]
        intro hbp
        exact h.1 ⟨b, hb, hbp.trans hap.symm⟩
      simp [hap, ht0]
    · simp only [hap, decide_False, Bool.false_eq_true, if_false]
      exact ih h.2

lemma inserted_count_le_one (recs : List (Int × ℚ)) (u p : Int)
    (h : (recs.map Prod.fst).Nodup) :
    ((recs.map (fun pr => (⟨u, pr.1, pr.2⟩ : RecRecord))).filter
      (fun r => r.user_id = u ∧ r.provider_id = p)).length ≤ 1 := by
  rw [List.filter_map, List.length_map]
  have hcomp : ((fun r : RecRecord => decide (r.user_id = u ∧ r.provider_id = p)) ∘
      (fun pr : Int × ℚ => (⟨u, pr.1, pr.2⟩ : RecRecord))) =
      fun pr : Int × ℚ => decide (pr.1 = p) := by
    funext pr
    simp
  rw [hcomp]
  exact count_fst_le_one recs p h

/-- C7: rebuilding a user's recommendations twice in succession is
idempotent — the second rebuild first deletes everything the first one
wrote — and afterwards the user has at most one record per provider
(generated recommendation lists carry distinct provider ids, coming from
a dict keyed by provider id). -/
theorem rebuild_idempotent (db : List RecRecord) (u : Int) (recs : List (Int × ℚ))
    (h : (recs.map Prod.fst).Nodup) :
    save_user_recommendations (save_user_recommendations db u recs) u recs =
      save_user_recommendations db u recs ∧
    ∀ p, ((save_user_recommendations (save_user_recommendations db u recs) u recs).filter
      (fun r => r.user_id = u ∧ r.provider_id = p)).length ≤ 1 := by
  have hfilter : (save_user_recommendations db u recs).filter
      (fun r => r.user_id ≠ u) = db.filter (fun r => r.user_id ≠ u) := by
    unfold save_user_recommendations
    rw [List.filter_append, List.filter_filter]
    have hmapped : ((recs.map (fun pr => (⟨u, pr.1, pr.2⟩ : RecRecord))).filter
        (fun r => r.user_id ≠ u)) = [] := by
      rw [List.filter_eq_nil_iff]
      intro r hr
      rcases List.mem_map.mp hr with ⟨b, _, hbr⟩
      subst hbr
      simp
    rw [hmapped, List.append_nil]
    congr 1
    funext r
    exact Bool.and_self _
  constructor
  · show (save_user_recommendations db u recs).filter (fun r => r.user_id ≠ u) ++
      recs.map (fun pr => (⟨u, pr.1, pr.2⟩ : RecRecord)) = _
    rw [hfilter]
    rfl
  · intro p
    show (((save_user_recommendations db u recs).filter (fun r => r.user_id ≠ u) ++
      recs.map (fun pr => (⟨u, pr.1, pr.2⟩ : RecRecord))).filter
        (fun r => r.user_id = u ∧ r.provider_id = p)).length ≤ 1
    rw [hfilter, List.filter_append]
    have hdel : ((db.filter (fun r => r.user_id ≠ u)).filter
        (fun r => r.user_id = u ∧ r.provider_id = p)) = [] := by
      rw [List.filter_filter, List.filter_eq_nil_iff]
      intro r _
      simp only [Bool.and_eq_true, decide_eq_true_eq, not_and]
      intro h1 h2
      exact absurd h1.1 (by simpa using h2)
    rw [hdel, List.nil_append]
    exact inserted_count_le_one recs u p h

/-- Closed instance of the rebuild theorem on a concrete database. -/
theorem rebuild_idempotent_witness :
    save_user_recommendations
        (save_user_recommendations [⟨1, 9, 1/2⟩] 1 [(3, 1/4)]) 1 [(3, 1/4)] =
      save_user_recommendations [⟨1, 9, 1/2⟩] 1 [(3, 1/4)] ∧
    ∀ p, ((save_user_recommendations
        (save_user_recommendations [⟨1, 9, 1/2⟩] 1 [(3, 1/4)]) 1 [(3, 1/4)]).filter
      (fun r => r.user_id = 1 ∧ r.provider_id = p)).length ≤ 1 :=
  rebuild_idempotent [⟨1, 9, 1/2⟩] 1 [(3, 1/4)] (by simp)

/-! ## A/B test assignment

Embedded from ABTestManager (api/utils/ab_testing.py).  Experiment
configurations live in a name-keyed table; assignments live in the
ABTestVariant table, modelled as a list of rows.  Calendar dates are
modelled as integer day numbers (strptime parsing of the configured
yyyy-mm-dd strings is outside the arithmetic the claims depend on), and
the MD5-based normalized hash is an abstract deterministic function
parameter, faithful to hashlib.md5 being an external library. -/

structure Variant where
  name : String
  weight : ℚ

structure Experiment where
  active : Bool
  start_date : Int
  end_date : Int
  variants : List Variant

structure Assignment where
  user_id : Int
  experiment_name : String
  variant : String

/-- Lookup of self.experiments[experiment_name]. -/
def lookupExperiment (cfg : List (String × Experiment)) (name : String) :
    Option Experiment :=
  (cfg.find? (fun p => p.1 = name)).map Prod.snd

/-- ABTestManager.is_experiment_active: known, globally enabled, and today
within [start_date, end_date]. -/
def is_experiment_active (cfg : List (String × Experiment)) (today : Int)
    (name : String) : Bool :=
  match lookupExperiment cfg name with
  | none => false
  | some e => e.active && decide (e.start_date ≤ today) && decide (today ≤ e.end_date)

/-- The ABTestVariant.objects.filter(user, experiment_name).first() query. -/
def findAssignment (db : List Assignment) (u : Int) (name : String) :
    Option Assignment :=
  db.find? (fun a => a.user_id = u ∧ a.experiment_name = name)

/-- The weight-accumulating variant walk: take the first variant whose
cumulative weight reaches the normalized hash, defaulting to control. -/
def pickVariant (h : ℚ) : List Variant → ℚ → String
  | [], _ => "control"
  | v :: rest, cumulative =>
    if h ≤ cumulative + v.weight then v.name
    else pickVariant h rest (cumulative + v.weight)

/-- ABTestManager.assign_user_to_variant: control for unknown or inactive
experiments (no write); the persisted variant when an assignment row
already exists (no write); otherwise pick a variant by hash bucket and
persist it.  Returns the variant together with the new assignment table. -/
def assign_user_to_variant (cfg : List (String × Experiment)) (today : Int)
    (md5_bucket : Int → String → ℚ) (db : List Assignment)
    (user_id : Int) (experiment_name : String) : String × List Assignment :=
  match lookupExperiment cfg experiment_name with
  | none => ("control", db)
  | some experiment =>
    if is_experiment_active cfg today experiment_name = false then ("control", db)
    else
      match findAssignment db user_id experiment_name with
      | some existing => (existing.variant, db)
      | none =>
        let assigned := pickVariant (md5_bucket user_id experiment_name)
          experiment.variants 0
        (assigned, db ++ [⟨user_id, experiment_name, assigned⟩])

/-- C9: for an experiment present in the configuration but not currently
active — globally disabled or with today outside [start_date, end_date] —
assign_user_to_variant returns control and leaves the assignment table
unchanged. -/
theorem inactive_experiment_control (cfg : List (String × Experiment)) (today : Int)
    (md5_bucket : Int → String → ℚ) (db : List Assignment)
    (user_id : Int) (name : String) (e : Experiment)
    (hfound : lookupExperiment cfg name = some e)
    (hinactive : e.active = false ∨ today < e.start_date ∨ e.end_date < today) :
    assign_user_to_variant cfg today md5_bucket db user_id name = ("control", db) := by
  have hact : is_experiment_active cfg today name = false := by
    unfold is_experiment_active
    rw [hfound]
    rcases hinactive with h | h | h
    · simp [h]
    · simp [not_le.mpr h]
    · simp [not_le.mpr h]
  unfold assign_user_to_variant
  rw [hfound, hact]
  simp

/-- A one-experiment configuration whose window ended on day 99. -/
def endedConfig : List (String × Experiment) :=
  [("recommendation_weights",
    ⟨true, 0, 99, [⟨"balanced", 1/2⟩, ⟨"collaborative_heavy", 1/4⟩,
      ⟨"content_heavy", 1/4⟩]⟩)]

/-- A hash bucket function; its values are irrelevant to these claims. -/
def bucketZero : Int → String → ℚ := fun _ _ => 0

/-- Closed instance of the inactive-experiment theorem: on day 200, after
the end date 99, user 1 gets control and no row is created. -/
theorem inactive_experiment_control_witness :
    assign_user_to_variant endedConfig 200 bucketZero [] 1
      "recommendation_weights" = ("control", []) :=
  inactive_experiment_control endedConfig 200 bucketZero [] 1
    "recommendation_weights"
    ⟨true, 0, 99, [⟨"balanced", 1/2⟩, ⟨"collaborative_heavy", 1/4⟩,
      ⟨"content_heavy", 1/4⟩]⟩
    (by norm_num [lookupExperiment, endedConfig, List.find?])
    (Or.inr (Or.inr (by norm_num)))

/-- An assignment table where user 1 already holds the balanced variant. -/
def priorAssignments : List Assignment :=
  [⟨1, "recommendation_weights", "balanced"⟩]

/-- C2 counterexample: the experiment window has ended, user 1 still has a
persisted assignment row with variant balanced, yet assign_user_to_variant
returns control, not the persisted variant — the active check runs before
the existing-assignment lookup. -/
theorem existing_assignment_counterexample :
    findAssignment priorAssignments 1 "recommendation_weights" =
      some ⟨1, "recommendation_weights", "balanced"⟩ ∧
    (assign_user_to_variant endedConfig 200 bucketZero priorAssignments 1
      "recommendation_weights").1 = "control" ∧
    ("control" : String) ≠ "balanced" := by
  refine ⟨?_, ?_, by decide⟩
  · norm_num [findAssignment, priorAssignments, List.find?]
  · rw [inactive_experiment_control endedConfig 200 bucketZero priorAssignments 1
      "recommendation_weights"
      ⟨true, 0, 99, [⟨"balanced", 1/2⟩, ⟨"collaborative_heavy", 1/4⟩,
        ⟨"content_heavy", 1/4⟩]⟩
      (by norm_num [lookupExperiment, endedConfig, List.find?])
      (Or.inr (Or.inr (by norm_num)))]

/-- C2 amended: for a known and currently active experiment, when a
persisted assignment row exists for the (user, experiment) pair,
assign_user_to_variant returns that row's variant and leaves the
assignment table unchanged — no row is created, modified or deleted (when
the experiment is unknown or inactive the call returns control, also
leaving the table unchanged). -/
theorem existing_assignment_returned (cfg : List (String × Experiment)) (today : Int)
    (md5_bucket : Int → String → ℚ) (db : List Assignment)
    (user_id : Int) (name : String) (e : Experiment) (row : Assignment)
    (hfound : lookupExperiment cfg name = some e)
    (hactive : is_experiment_active cfg today name = true)
    (hrow : findAssignment db user_id name = some row) :
    assign_user_to_variant cfg today md5_bucket db user_id name = (row.variant, db) := by
  unfold assign_user_to_variant
  rw [hfound, hactive, hrow]
  simp

/-- A configuration whose single experiment is active around day 50. -/
def activeConfig : List (String × Experiment) :=
  [("recommendation_weights",
    ⟨true, 0, 99, [⟨"balanced", 1/2⟩, ⟨"collaborative_heavy", 1/4⟩,
      ⟨"content_heavy", 1/4⟩]⟩)]

/-- Closed instance of the existing-assignment theorem: inside the window,
the persisted balanced variant is returned and the table is unchanged. -/
theorem existing_assignment_returned_witness :
    assign_user_to_variant activeConfig 50 bucketZero priorAssignments 1
      "recommendation_weights" = ("balanced", priorAssignments) :=
  existing_assignment_returned activeConfig 50 bucketZero priorAssignments 1
    "recommendation_weights"
    ⟨true, 0, 99, [⟨"balanced", 1/2⟩, ⟨"collaborative_heavy", 1/4⟩,
      ⟨"content_heavy", 1/4⟩]⟩
    ⟨1, "recommendation_weights", "balanced"⟩
    (by norm_num [lookupExperiment, activeConfig, List.find?])
    (by norm_num [is_experiment_active, lookupExperiment, activeConfig, List.find?])
    (by norm_num [findAssignment, priorAssignments, List.find?])

/-! ## Location-based engine

Embedded from LocationBasedEngine (api/utils/recommendation_engine.py,
lines 384-478) over the real numbers.  calculate_distance guards with
Python truthiness — `if not all([lat1, lng1, lat2, lng2])` — so a
coordinate equal to 0 is treated like a missing one and the function
returns float(inf), modelled as none. -/

noncomputable def calculate_distance (lat1 lng1 lat2 lng2 : ℝ) : Option ℝ :=
  if lat1 = 0 ∨ lng1 = 0 ∨ lat2 = 0 ∨ lng2 = 0 then none
  else
    let rlat1 := lat1 * (Real.pi / 180)
    let rlat2 := lat2 * (Real.pi / 180)
    let rlng1 := lng1 * (Real.pi / 180)
    let rlng2 := lng2 * (Real.pi / 180)
    let dlat := rlat2 - rlat1
    let dlng := rlng2 - rlng1
    let a := Real.sin (dlat / 2) ^ 2 +
      Real.cos rlat1 * Real.cos rlat2 * Real.sin (dlng / 2) ^ 2
    some (6371 * (2 * Real.arcsin (Real.sqrt a)))

/-- C8: the Haversine helper treats the coordinate value 0 as missing, so
for the valid equator point a = (lat 0, lng 10) the self-distance is the
infinity marker instead of the 0 required by the spec. -/
theorem distance_zero_guard_bug :
    calculate_distance 0 10 0 10 = none ∧ (none : Option ℝ) ≠ some (0 : ℝ) := by
  constructor
  · unfold calculate_distance
    rw [if_pos (Or.inl rfl)]
  · simp

lemma calculate_distance_nonneg (a b c d x : ℝ)
    (h : calculate_distance a b c d = some x) : 0 ≤ x := by
  unfold calculate_distance at h
  split_ifs at h
  have hx := Option.some_inj.mp h
  have harcsin : 0 ≤ Real.arcsin (Real.sqrt (Real.sin ((c * (Real.pi / 180) -
      a * (Real.pi / 180)) / 2) ^ 2 + Real.cos (a * (Real.pi / 180)) *
      Real.cos (c * (Real.pi / 180)) * Real.sin ((d * (Real.pi / 180) -
      b * (Real.pi / 180)) / 2) ^ 2)) :=
    Real.arcsin_nonneg.mpr (Real.sqrt_nonneg _)
  rw [← hx]
  nlinarith

/-- Score of one provider at a known distance: exponential decay within
the radius, flat minimum 0.1 beyond it (and for the infinity marker,
since inf <= radius is false). -/
noncomputable def location_score (radius ulat ulng plat plng : ℝ) : ℝ :=
  match calculate_distance ulat ulng plat plng with
  | none => 1/10
  | some distance =>
    if distance ≤ radius then Real.exp (-distance / radius) else 1/10

/-- LocationBasedEngine.predict_scores over the candidates' known
coordinates: a provider whose stored latitude or longitude is falsy
(equal to 0) is skipped by the address truthiness check, every other one
is scored. -/
noncomputable def location_predict_scores (radius ulat ulng : ℝ)
    (provider_locations : List (Int × ℝ × ℝ)) : List (Int × ℝ) :=
  provider_locations.filterMap (fun p =>
    if p.2.1 ≠ 0 ∧ p.2.2 ≠ 0 then
      some (p.1, location_score radius ulat ulng p.2.1 p.2.2)
    else none)

lemma location_score_eq_none (radius ulat ulng plat plng : ℝ)
    (h : calculate_distance ulat ulng plat plng = none) :
    location_score radius ulat ulng plat plng = 1/10 := by
  unfold location_score
  rw [h]

lemma location_score_eq_some (radius ulat ulng plat plng d : ℝ)
    (h : calculate_distance ulat ulng plat plng = some d) :
    location_score radius ulat ulng plat plng =
      if d ≤ radius then Real.exp (-d / radius) else 1/10 := by
  unfold location_score
  rw [h]

lemma exp_neg_one_ge_tenth : (1/10 : ℝ) ≤ Real.exp (-1) := by
  rw [Real.exp_neg]
  have h10 : Real.exp 1 ≤ 10 :=
    le_of_lt (lt_trans Real.exp_one_lt_d9 (by norm_num))
  have hinv : (10 : ℝ)⁻¹ ≤ (Real.exp 1)⁻¹ :=
    inv_le_inv_of_le (Real.exp_pos 1) h10
  calc (1/10 : ℝ) = (10 : ℝ)⁻¹ := by norm_num
    _ ≤ (Real.exp 1)⁻¹ := hinv

/-- C10: every score returned by the location engine lies in [0.1, 1];
it is either exactly the flat minimum 0.1 or an exponential-decay value
bounded below by exp(-1) — never zero or negative. -/
theorem location_scores_bounded (radius ulat ulng : ℝ)
    (provs : List (Int × ℝ × ℝ)) (pid : Int) (s : ℝ)
    (hr : 0 < radius)
    (hmem : (pid, s) ∈ location_predict_scores radius ulat ulng provs) :
    (1/10 ≤ s ∧ s ≤ 1) ∧ (s = 1/10 ∨ Real.exp (-1) ≤ s) := by
  rcases List.mem_filterMap.mp hmem with ⟨p, _, hp⟩
  split_ifs at hp
  have hs : s = location_score radius ulat ulng p.2.1 p.2.2 :=
    (congrArg Prod.snd (Option.some_inj.mp hp)).symm
  subst hs
  rcases hdist : calculate_distance ulat ulng p.2.1 p.2.2 with _ | d
  · rw [location_score_eq_none radius _ _ _ _ hdist]
    exact ⟨⟨le_refl _, by norm_num⟩, Or.inl rfl⟩
  · rw [location_score_eq_some radius _ _ _ _ d hdist]
    have hd0 : 0 ≤ d := calculate_distance_nonneg _ _ _ _ _ hdist
    by_cases hdr : d ≤ radius
    · rw [if_pos hdr]
      have hratio : d / radius ≤ 1 := (div_le_one hr).mpr hdr
      have hlow : Real.exp (-1) ≤ Real.exp (-d / radius) := by
        apply Real.exp_le_exp.mpr
        rw [neg_div]
        linarith
      have hhigh : Real.exp (-d / radius) ≤ 1 := by
        calc Real.exp (-d / radius) ≤ Real.exp 0 := by
              apply Real.exp_le_exp.mpr
              rw [neg_div]
              have : 0 ≤ d / radius := div_nonneg hd0 (le_of_lt hr)
              linarith
          _ = 1 := Real.exp_zero
      exact ⟨⟨le_trans exp_neg_one_ge_tenth hlow, hhigh⟩, Or.inr hlow⟩
    · rw [if_neg hdr]
      exact ⟨⟨le_refl _, by norm_num⟩, Or.inl rfl⟩

/-- Closed instance of the location-score bound theorem at radius 50 for a
provider at coordinate (3, 4) with the user at (1, 1). -/
theorem location_scores_bounded_witness :
    (1/10 ≤ location_score 50 1 1 3 4 ∧ location_score 50 1 1 3 4 ≤ 1) ∧
    (location_score 50 1 1 3 4 = 1/10 ∨ Real.exp (-1) ≤ location_score 50 1 1 3 4) :=
  location_scores_bounded 50 1 1 [(7, 3, 4)] 7 (location_score 50 1 1 3 4)
    (by norm_num)
    (by norm_num [location_predict_scores, List.filterMap_cons, List.filterMap_nil])

end CommunityConnect
